import Mathlib

/-!
Verification of the firewall-controller core: the NetworkPolicy → HCN ACL
converter (`internal/converter/policy.go`) and the endpoint policy manager
(`internal/hcn/acl.go`), shallowly embedded in Lean 4.

Machine integers: the converter's priority counter is a Go `uint16`; it is
modelled as a `Nat` kept below 2^16 by taking `% 65536` at every increment,
exactly where the Go overflow semantics matters.
-/

namespace FirewallController

/-! ## HCN data model (from `internal/hcn/types.go`) -/

inductive ActionType where
  | ActionTypeAllow
  | ActionTypeBlock
deriving DecidableEq, Repr

inductive DirectionType where
  | DirectionTypeIn
  | DirectionTypeOut
deriving DecidableEq, Repr

/-- `ACLRule` from the hcn package: one atomic filter rule.
`Priority` is a Go `uint16`, modelled as `Nat` (kept `< 65536`). -/
structure ACLRule where
  Name : String
  Action : ActionType
  Direction : DirectionType
  Protocol : String := ""
  LocalPorts : String := ""
  RemotePorts : String := ""
  RemoteAddresses : String := ""
  Priority : Nat := 0
deriving DecidableEq, Repr

instance : Inhabited ACLRule :=
  ⟨{ Name := "", Action := .ActionTypeAllow, Direction := .DirectionTypeIn }⟩

/-! ## Kubernetes NetworkPolicy input model (the fields the converter reads) -/

/-- `intstr.IntOrString`: an integral or a named (symbolic) port value.
(The Go value also has an out-of-range `Type` default arm; well-formed
values only ever carry one of these two tags.) -/
inductive IntOrString where
  | intVal (n : Int)
  | strVal (s : String)
deriving DecidableEq, Repr

structure IPBlock where
  CIDR : String
deriving DecidableEq, Repr

/-- `networkingv1.NetworkPolicyPeer`.  The selector fields are carried as
presence flags only: the converter never inspects them (source: only
`IPBlock` is read by `getPeerAddress`). -/
structure NetworkPolicyPeer where
  IPBlock : Option IPBlock := none
  PodSelector : Bool := false
  NamespaceSelector : Bool := false
deriving DecidableEq, Repr

/-- `networkingv1.NetworkPolicyPort`: optional protocol name and optional port. -/
structure NetworkPolicyPort where
  Protocol : Option String := none
  Port : Option IntOrString := none
deriving DecidableEq, Repr

structure NetworkPolicyIngressRule where
  Ports : List NetworkPolicyPort := []
  From : List NetworkPolicyPeer := []
deriving DecidableEq, Repr

structure NetworkPolicyEgressRule where
  Ports : List NetworkPolicyPort := []
  To : List NetworkPolicyPeer := []
deriving DecidableEq, Repr

structure NetworkPolicy where
  Namespace : String
  Name : String
  Ingress : List NetworkPolicyIngressRule := []
  Egress : List NetworkPolicyEgressRule := []
deriving DecidableEq, Repr

/-! ## Converter (from `internal/converter/policy.go`) -/

/-- `getPeerAddress`: extract the CIDR of an address-block peer; every other
peer kind yields `""` (the "unresolvable" signal). -/
def getPeerAddress (peer : NetworkPolicyPeer) : String :=
  match peer.IPBlock with
  | some b => b.CIDR
  | none => ""

/-- `protocolToNumber`: TCP→"6", UDP→"17", SCTP→"132"; `nil` and anything
unrecognized default to TCP ("6"). -/
def protocolToNumber (proto : Option String) : String :=
  match proto with
  | none => "6"
  | some p =>
    if p = "TCP" then "6"
    else if p = "UDP" then "17"
    else if p = "SCTP" then "132"
    else "6"

/-- `portToString`: integral ports print in decimal; named ports and absent
ports become `""` (all ports). -/
def portToString (port : Option IntOrString) : String :=
  match port with
  | none => ""
  | some (.intVal n) => toString n
  | some (.strVal _) => ""

/-- The Go `*priority++` on a `uint16`: increment modulo 2^16. -/
def nextPriority (p : Nat) : Nat := (p + 1) % 65536

/-- Loop `for _, from := range ingressRule.From` in the no-ports branch of
`convertIngressRule`; the mutable `*uint16` counter is threaded explicitly. -/
def convertIngressFromLoop (np : NetworkPolicy) (peers : List NetworkPolicyPeer)
    (priority : Nat) : List ACLRule × Nat :=
  match peers with
  | [] => ([], priority)
  | peer :: rest =>
    let remoteAddr := getPeerAddress peer
    if remoteAddr = "" then
      convertIngressFromLoop np rest priority
    else
      let rule : ACLRule :=
        { Name := np.Namespace ++ "/" ++ np.Name ++ "-ingress"
          Action := .ActionTypeAllow
          Direction := .DirectionTypeIn
          Protocol := ""
          RemoteAddresses := remoteAddr
          Priority := priority }
      let rec_result := convertIngressFromLoop np rest (nextPriority priority)
      (rule :: rec_result.1, rec_result.2)

/-- Inner loop `for _, from := range ingressRule.From` for one port
specifier, in the with-ports branch of `convertIngressRule`. -/
def convertIngressPortFromLoop (np : NetworkPolicy) (port : NetworkPolicyPort)
    (peers : List NetworkPolicyPeer) (priority : Nat) : List ACLRule × Nat :=
  match peers with
  | [] => ([], priority)
  | peer :: rest =>
    let remoteAddr := getPeerAddress peer
    if remoteAddr = "" then
      convertIngressPortFromLoop np port rest priority
    else
      let rule : ACLRule :=
        { Name := np.Namespace ++ "/" ++ np.Name ++ "-ingress"
          Action := .ActionTypeAllow
          Direction := .DirectionTypeIn
          Protocol := protocolToNumber port.Protocol
          LocalPorts := portToString port.Port
          RemoteAddresses := remoteAddr
          Priority := priority }
      let rec_result := convertIngressPortFromLoop np port rest (nextPriority priority)
      (rule :: rec_result.1, rec_result.2)

/-- Outer loop `for _, port := range ingressRule.Ports` of `convertIngressRule`. -/
def convertIngressPortLoop (np : NetworkPolicy) (peers : List NetworkPolicyPeer)
    (ports : List NetworkPolicyPort) (priority : Nat) : List ACLRule × Nat :=
  match ports with
  | [] => ([], priority)
  | port :: rest =>
    if peers.isEmpty then
      let rule : ACLRule :=
        { Name := np.Namespace ++ "/" ++ np.Name ++ "-ingress"
          Action := .ActionTypeAllow
          Direction := .DirectionTypeIn
          Protocol := protocolToNumber port.Protocol
          LocalPorts := portToString port.Port
          RemoteAddresses := "0.0.0.0/0"
          Priority := priority }
      let rec_result := convertIngressPortLoop np peers rest (nextPriority priority)
      (rule :: rec_result.1, rec_result.2)
    else
      let inner := convertIngressPortFromLoop np port peers priority
      let rec_result := convertIngressPortLoop np peers rest inner.2
      (inner.1 ++ rec_result.1, rec_result.2)

/-- `convertIngressRule`: one ingress rule → zero or more ACL rules. -/
def convertIngressRule (np : NetworkPolicy) (r : NetworkPolicyIngressRule)
    (priority : Nat) : List ACLRule × Nat :=
  if r.Ports.isEmpty then
    if r.From.isEmpty then
      let rule : ACLRule :=
        { Name := np.Namespace ++ "/" ++ np.Name ++ "-ingress"
          Action := .ActionTypeAllow
          Direction := .DirectionTypeIn
          Protocol := ""
          RemoteAddresses := "0.0.0.0/0"
          Priority := priority }
      ([rule], nextPriority priority)
    else
      convertIngressFromLoop np r.From priority
  else
    convertIngressPortLoop np r.From r.Ports priority

/-- Loop `for _, to := range egressRule.To` in the no-ports branch of
`convertEgressRule`. -/
def convertEgressToLoop (np : NetworkPolicy) (peers : List NetworkPolicyPeer)
    (priority : Nat) : List ACLRule × Nat :=
  match peers with
  | [] => ([], priority)
  | peer :: rest =>
    let remoteAddr := getPeerAddress peer
    if remoteAddr = "" then
      convertEgressToLoop np rest priority
    else
      let rule : ACLRule :=
        { Name := np.Namespace ++ "/" ++ np.Name ++ "-egress"
          Action := .ActionTypeAllow
          Direction := .DirectionTypeOut
          Protocol := ""
          RemoteAddresses := remoteAddr
          Priority := priority }
      let rec_result := convertEgressToLoop np rest (nextPriority priority)
      (rule :: rec_result.1, rec_result.2)

/-- Inner loop `for _, to := range egressRule.To` for one port specifier. -/
def convertEgressPortToLoop (np : NetworkPolicy) (port : NetworkPolicyPort)
    (peers : List NetworkPolicyPeer) (priority : Nat) : List ACLRule × Nat :=
  match peers with
  | [] => ([], priority)
  | peer :: rest =>
    let remoteAddr := getPeerAddress peer
    if remoteAddr = "" then
      convertEgressPortToLoop np port rest priority
    else
      let rule : ACLRule :=
        { Name := np.Namespace ++ "/" ++ np.Name ++ "-egress"
          Action := .ActionTypeAllow
          Direction := .DirectionTypeOut
          Protocol := protocolToNumber port.Protocol
          RemotePorts := portToString port.Port
          RemoteAddresses := remoteAddr
          Priority := priority }
      let rec_result := convertEgressPortToLoop np port rest (nextPriority priority)
      (rule :: rec_result.1, rec_result.2)

/-- Outer loop `for _, port := range egressRule.Ports` of `convertEgressRule`. -/
def convertEgressPortLoop (np : NetworkPolicy) (peers : List NetworkPolicyPeer)
    (ports : List NetworkPolicyPort) (priority : Nat) : List ACLRule × Nat :=
  match ports with
  | [] => ([], priority)
  | port :: rest =>
    if peers.isEmpty then
      let rule : ACLRule :=
        { Name := np.Namespace ++ "/" ++ np.Name ++ "-egress"
          Action := .ActionTypeAllow
          Direction := .DirectionTypeOut
          Protocol := protocolToNumber port.Protocol
          RemotePorts := portToString port.Port
          RemoteAddresses := "0.0.0.0/0"
          Priority := priority }
      let rec_result := convertEgressPortLoop np peers rest (nextPriority priority)
      (rule :: rec_result.1, rec_result.2)
    else
      let inner := convertEgressPortToLoop np port peers priority
      let rec_result := convertEgressPortLoop np peers rest inner.2
      (inner.1 ++ rec_result.1, rec_result.2)

/-- `convertEgressRule`: one egress rule → zero or more ACL rules. -/
def convertEgressRule (np : NetworkPolicy) (r : NetworkPolicyEgressRule)
    (priority : Nat) : List ACLRule × Nat :=
  if r.Ports.isEmpty then
    if r.To.isEmpty then
      let rule : ACLRule :=
        { Name := np.Namespace ++ "/" ++ np.Name ++ "-egress"
          Action := .ActionTypeAllow
          Direction := .DirectionTypeOut
          Protocol := ""
          RemoteAddresses := "0.0.0.0/0"
          Priority := priority }
      ([rule], nextPriority priority)
    else
      convertEgressToLoop np r.To priority
  else
    convertEgressPortLoop np r.To r.Ports priority

/-- Loop `for _, ingressRule := range np.Spec.Ingress` of
`NetworkPolicyToACLRules`. -/
def convertIngressRules (np : NetworkPolicy) (rs : List NetworkPolicyIngressRule)
    (priority : Nat) : List ACLRule × Nat :=
  match rs with
  | [] => ([], priority)
  | r :: rest =>
    let this_rule := convertIngressRule np r priority
    let rec_result := convertIngressRules np rest this_rule.2
    (this_rule.1 ++ rec_result.1, rec_result.2)

/-- Loop `for _, egressRule := range np.Spec.Egress`. -/
def convertEgressRules (np : NetworkPolicy) (rs : List NetworkPolicyEgressRule)
    (priority : Nat) : List ACLRule × Nat :=
  match rs with
  | [] => ([], priority)
  | r :: rest =>
    let this_rule := convertEgressRule np r priority
    let rec_result := convertEgressRules np rest this_rule.2
    (this_rule.1 ++ rec_result.1, rec_result.2)

/-- `NetworkPolicyToACLRules`: the top-level converter. The priority counter
starts at 100 and is threaded through all ingress rules, then all egress
rules. -/
def NetworkPolicyToACLRules (np : NetworkPolicy) : List ACLRule :=
  let ing := convertIngressRules np np.Ingress 100
  let eg := convertEgressRules np np.Egress ing.2
  ing.1 ++ eg.1

/-! ## Endpoint policy manager (from `internal/hcn/acl.go`)

The manager's host dependencies — the four `HCNClient` operations and the
JSON marshalling used by `buildPolicies` — are external capabilities (the
hcsshim library and `encoding/json`), so they are modelled as a record of
pure functions, exactly the test-double shape used by the repository's own
mocks.  An operation returning `some msg` / `.error msg` models a Go error. -/

structure HostComputeEndpoint where
  Id : String
  Name : String
deriving DecidableEq, Repr

inductive RequestType where
  | Add
  | Remove
deriving DecidableEq, Repr

inductive EndpointPolicyType where
  | ACL
deriving DecidableEq, Repr

/-- `hcn.EndpointPolicy`: a type tag plus the marshalled JSON settings.
(The Go field is named `Type`, a reserved word in Lean, hence `Type'`.) -/
structure EndpointPolicy where
  Type' : EndpointPolicyType
  Settings : String
deriving DecidableEq, Repr

structure PolicyEndpointRequest where
  Policies : List EndpointPolicy
deriving DecidableEq, Repr

/-- `hcn.AclPolicySetting` as populated by `buildPolicies`. -/
structure AclPolicySetting where
  Protocols : String
  Action : ActionType
  Direction : DirectionType
  LocalAddresses : String
  RemoteAddresses : String
  LocalPorts : String
  RemotePorts : String
  Priority : Nat
deriving DecidableEq, Repr

/-- `RuleSet`: the policies that were successfully installed on one endpoint,
kept verbatim for later removal. -/
structure RuleSet where
  EndpointID : String
  Policies : List EndpointPolicy
deriving DecidableEq, Repr

/-- The abstract host capability: the `HCNClient` interface plus the JSON
encoder.  Each field is a deterministic function, which is exactly how the
repository's test doubles behave within a single manager call. -/
structure Host where
  listEndpoints : Except String (List HostComputeEndpoint)
  applyEndpointPolicy : HostComputeEndpoint → RequestType → PolicyEndpointRequest → Option String
  getEndpointByID : String → Except String HostComputeEndpoint
  removeEndpointPolicy : HostComputeEndpoint → RequestType → PolicyEndpointRequest → Option String
  marshal : AclPolicySetting → Except String String

/-- Observable host-side calls made during one manager operation. -/
inductive HostCall where
  | listEndpoints
  | applyPolicy (endpointId : String)
  | getEndpoint (endpointId : String)
  | removePolicy (endpointId : String)
deriving DecidableEq, Repr

/-- The errors a manager call can return, one constructor per `fmt.Errorf`
site in `acl.go`. -/
inductive ManagerError where
  | listEndpointsFailed (err : String)
  | buildPoliciesFailed (err : String)
  | applyAggregate (failed total : Nat) (errs : List String)
  | removeAggregate (failed total : Nat) (errs : List String)
deriving DecidableEq, Repr

/-- The manager's `appliedPolicies` map, modelled as an association list
with at most one binding per key (Go map semantics for the operations the
code performs: lookup, overwrite, delete, key listing). -/
abbrev TrackingIndex := List (String × List RuleSet)

def lookupPolicy (st : TrackingIndex) (key : String) : Option (List RuleSet) :=
  match st.find? (fun kv => kv.1 == key) with
  | some kv => some kv.2
  | none => none

def deletePolicy (st : TrackingIndex) (key : String) : TrackingIndex :=
  st.filter (fun kv => kv.1 != key)

def setPolicy (st : TrackingIndex) (key : String) (v : List RuleSet) : TrackingIndex :=
  (key, v) :: deletePolicy st key

/-- The `AclPolicySetting` built from one `ACLRule` in `buildPolicies`. -/
def aclSettingOf (rule : ACLRule) : AclPolicySetting :=
  { Protocols := rule.Protocol
    Action := rule.Action
    Direction := rule.Direction
    LocalAddresses := ""
    RemoteAddresses := rule.RemoteAddresses
    LocalPorts := rule.LocalPorts
    RemotePorts := rule.RemotePorts
    Priority := rule.Priority }

/-- The indexed loop body of `buildPolicies` (index `i` only feeds the error
message, as in the source). -/
def buildPoliciesAux (marshal : AclPolicySetting → Except String String)
    (i : Nat) : List ACLRule → Except String (List EndpointPolicy)
  | [] => .ok []
  | rule :: rest =>
    match marshal (aclSettingOf rule) with
    | .error e =>
      .error ("failed to marshal ACL setting for rule " ++ toString i ++ ": " ++ e)
    | .ok settingsJSON =>
      match buildPoliciesAux marshal (i + 1) rest with
      | .error e => .error e
      | .ok policies => .ok ({ Type' := .ACL, Settings := settingsJSON } :: policies)

/-- `buildPolicies`: convert `ACLRule`s to HCN endpoint policies; the first
marshalling failure aborts the whole build. -/
def buildPolicies (marshal : AclPolicySetting → Except String String)
    (rules : List ACLRule) : Except String (List EndpointPolicy) :=
  buildPoliciesAux marshal 0 rules

/-- The per-endpoint loop of `ApplyACLRules`: returns the accumulated
successful `RuleSet`s, the accumulated error messages, and the host calls
made, in loop order. -/
def applyToEndpoints (host : Host) (policies : List EndpointPolicy) :
    List HostComputeEndpoint → List RuleSet × List String × List HostCall
  | [] => ([], [], [])
  | ep :: rest =>
    let rec_result := applyToEndpoints host policies rest
    match host.applyEndpointPolicy ep .Add ⟨policies⟩ with
    | some e =>
      (rec_result.1, ("endpoint " ++ ep.Id ++ ": " ++ e) :: rec_result.2.1,
       .applyPolicy ep.Id :: rec_result.2.2)
    | none =>
      ({ EndpointID := ep.Id, Policies := policies } :: rec_result.1, rec_result.2.1,
       .applyPolicy ep.Id :: rec_result.2.2)

/-- `Manager.ApplyACLRules`: list endpoints, build policies once, fan out to
every endpoint (best effort), then unconditionally overwrite the tracking
entry with the successes and report an aggregate error if any endpoint
failed.  Returns (new tracking state, returned error, host calls made). -/
def ApplyACLRules (host : Host) (st : TrackingIndex) (policyKey : String)
    (rules : List ACLRule) : TrackingIndex × Option ManagerError × List HostCall :=
  match host.listEndpoints with
  | .error e => (st, some (.listEndpointsFailed e), [.listEndpoints])
  | .ok endpoints =>
    if endpoints.isEmpty then
      (st, none, [.listEndpoints])
    else
      match buildPolicies host.marshal rules with
      | .error e => (st, some (.buildPoliciesFailed e), [.listEndpoints])
      | .ok policies =>
        let loop := applyToEndpoints host policies endpoints
        let st' := setPolicy st policyKey loop.1
        if loop.2.1.isEmpty then
          (st', none, .listEndpoints :: loop.2.2)
        else
          (st', some (.applyAggregate loop.2.1.length endpoints.length loop.2.1),
           .listEndpoints :: loop.2.2)

/-- The per-`RuleSet` loop of `RemoveACLRules`: look up each endpoint by id
and replay the recorded policies as a remove request; failures are
accumulated, never aborting the loop. -/
def removeFromRuleSets (host : Host) :
    List RuleSet → List String × List HostCall
  | [] => ([], [])
  | rs :: rest =>
    let rec_result := removeFromRuleSets host rest
    match host.getEndpointByID rs.EndpointID with
    | .error e =>
      (("get endpoint " ++ rs.EndpointID ++ ": " ++ e) :: rec_result.1,
       .getEndpoint rs.EndpointID :: rec_result.2)
    | .ok ep =>
      match host.removeEndpointPolicy ep .Remove ⟨rs.Policies⟩ with
      | some e =>
        (("endpoint " ++ rs.EndpointID ++ ": " ++ e) :: rec_result.1,
         .getEndpoint rs.EndpointID :: .removePolicy rs.EndpointID :: rec_result.2)
      | none =>
        (rec_result.1,
         .getEndpoint rs.EndpointID :: .removePolicy rs.EndpointID :: rec_result.2)

/-- `Manager.RemoveACLRules`: untracked keys are a no-op success; otherwise
the tracking entry is deleted eagerly, then host-side removal is attempted
for every recorded rule set, with aggregate error reporting. -/
def RemoveACLRules (host : Host) (st : TrackingIndex) (policyKey : String) :
    TrackingIndex × Option ManagerError × List HostCall :=
  match lookupPolicy st policyKey with
  | none => (st, none, [])
  | some ruleSets =>
    let st' := deletePolicy st policyKey
    let loop := removeFromRuleSets host ruleSets
    if loop.1.isEmpty then
      (st', none, loop.2)
    else
      (st', some (.removeAggregate loop.1.length ruleSets.length loop.1), loop.2)

/-- `Manager.GetAppliedPolicies`: the Go two-valued map read
`ruleSets, exists := m.appliedPolicies[policyKey]`. -/
def GetAppliedPolicies (st : TrackingIndex) (policyKey : String) :
    List RuleSet × Bool :=
  match lookupPolicy st policyKey with
  | some ruleSets => (ruleSets, true)
  | none => ([], false)

/-- `Manager.ListTrackedPolicies`: all tracked policy keys. -/
def ListTrackedPolicies (st : TrackingIndex) : List String :=
  st.map Prod.fst

/-! ## Spec-side expansion (refinement target)

The following definitions transcribe §4.1 of the specification: per
directional rule, the emitted rules are the port × resolvable-peer
cross-product (port outer, peer inner), with the documented defaulting for
empty port/peer lists, ingress before egress, each rule list in spec
order, and priorities assigned by emission position starting at 100.
They are compared against the source-derived converter above. -/

/-- A peer resolves iff the resolver yields a non-empty address string. -/
def isResolvable (peer : NetworkPolicyPeer) : Bool :=
  getPeerAddress peer != ""

/-- Spec §4.1: ingress rule emitted for one peer address, no port constraint
(protocol "any").  Priority 0 is a placeholder overwritten by `renumber`. -/
def specIngressPeerRule (np : NetworkPolicy) (addr : String) : ACLRule :=
  { Name := np.Namespace ++ "/" ++ np.Name ++ "-ingress"
    Action := .ActionTypeAllow
    Direction := .DirectionTypeIn
    Protocol := ""
    RemoteAddresses := addr
    Priority := 0 }

/-- Spec §4.1: ingress rule emitted for one (port, peer address) pair. -/
def specIngressPortPeerRule (np : NetworkPolicy) (port : NetworkPolicyPort)
    (addr : String) : ACLRule :=
  { Name := np.Namespace ++ "/" ++ np.Name ++ "-ingress"
    Action := .ActionTypeAllow
    Direction := .DirectionTypeIn
    Protocol := protocolToNumber port.Protocol
    LocalPorts := portToString port.Port
    RemoteAddresses := addr
    Priority := 0 }

def specEgressPeerRule (np : NetworkPolicy) (addr : String) : ACLRule :=
  { Name := np.Namespace ++ "/" ++ np.Name ++ "-egress"
    Action := .ActionTypeAllow
    Direction := .DirectionTypeOut
    Protocol := ""
    RemoteAddresses := addr
    Priority := 0 }

def specEgressPortPeerRule (np : NetworkPolicy) (port : NetworkPolicyPort)
    (addr : String) : ACLRule :=
  { Name := np.Namespace ++ "/" ++ np.Name ++ "-egress"
    Action := .ActionTypeAllow
    Direction := .DirectionTypeOut
    Protocol := protocolToNumber port.Protocol
    RemotePorts := portToString port.Port
    RemoteAddresses := addr
    Priority := 0 }

/-- Spec §4.1, one port of an ingress rule: one rule per resolvable peer,
or a single unrestricted-address rule when the peer list is empty. -/
def specIngressPortExpansion (np : NetworkPolicy) (peers : List NetworkPolicyPeer)
    (port : NetworkPolicyPort) : List ACLRule :=
  if peers.isEmpty then
    [specIngressPortPeerRule np port "0.0.0.0/0"]
  else
    (peers.filter isResolvable).map (fun q => specIngressPortPeerRule np port (getPeerAddress q))

/-- Spec §4.1: the four defaulting cases for one ingress rule. -/
def specIngressRuleExpansion (np : NetworkPolicy) (r : NetworkPolicyIngressRule) :
    List ACLRule :=
  if r.Ports.isEmpty then
    if r.From.isEmpty then
      [specIngressPeerRule np "0.0.0.0/0"]
    else
      (r.From.filter isResolvable).map (fun q => specIngressPeerRule np (getPeerAddress q))
  else
    r.Ports.flatMap (specIngressPortExpansion np r.From)

def specEgressPortExpansion (np : NetworkPolicy) (peers : List NetworkPolicyPeer)
    (port : NetworkPolicyPort) : List ACLRule :=
  if peers.isEmpty then
    [specEgressPortPeerRule np port "0.0.0.0/0"]
  else
    (peers.filter isResolvable).map (fun q => specEgressPortPeerRule np port (getPeerAddress q))

def specEgressRuleExpansion (np : NetworkPolicy) (r : NetworkPolicyEgressRule) :
    List ACLRule :=
  if r.Ports.isEmpty then
    if r.To.isEmpty then
      [specEgressPeerRule np "0.0.0.0/0"]
    else
      (r.To.filter isResolvable).map (fun q => specEgressPeerRule np (getPeerAddress q))
  else
    r.Ports.flatMap (specEgressPortExpansion np r.To)

/-- Spec §4.1: full expansion, all ingress rules before all egress rules,
each in spec order (priorities not yet assigned). -/
def specExpansion (np : NetworkPolicy) : List ACLRule :=
  np.Ingress.flatMap (specIngressRuleExpansion np) ++
  np.Egress.flatMap (specEgressRuleExpansion np)

/-- The priority counter after `n` emissions starting from `p` (uint16). -/
def advance (p n : Nat) : Nat := (p + n) % 65536

/-- Assign emission-order priorities starting at `p`, with the source's
uint16 wrap-around. -/
def renumber (p : Nat) : List ACLRule → List ACLRule
  | [] => []
  | r :: rest => { r with Priority := p } :: renumber (nextPriority p) rest

/-! ## Expansion-count functions (spec §8's `p×q` bookkeeping) -/

/-- Rules emitted per port specifier: 1 for an absent peer list, otherwise
the number of resolvable peers. -/
def peerFactor (peers : List NetworkPolicyPeer) : Nat :=
  if peers.isEmpty then 1 else (peers.filter isResolvable).length

/-- Rules emitted for one directional rule entry. -/
def ruleExpansionCount (ports : List NetworkPolicyPort)
    (peers : List NetworkPolicyPeer) : Nat :=
  if ports.isEmpty then peerFactor peers else ports.length * peerFactor peers

/-- Total rules the converter emits for one policy:
`Σ(ingress expansions) + Σ(egress expansions)`. -/
def totalExpansionCount (np : NetworkPolicy) : Nat :=
  (np.Ingress.map (fun r => ruleExpansionCount r.Ports r.From)).sum +
  (np.Egress.map (fun r => ruleExpansionCount r.Ports r.To)).sum

/-! ## Priority-counter lemmas -/

theorem nextPriority_lt (p : Nat) : nextPriority p < 65536 :=
  Nat.mod_lt _ (by norm_num)

theorem nextPriority_eq_advance (p : Nat) : nextPriority p = advance p 1 := rfl

theorem advance_lt (p n : Nat) : advance p n < 65536 :=
  Nat.mod_lt _ (by norm_num)

theorem advance_zero {p : Nat} (hp : p < 65536) : advance p 0 = p := by
  simp only [advance]
  omega

theorem advance_advance (p m n : Nat) : advance (advance p m) n = advance p (m + n) := by
  simp only [advance]
  omega

theorem renumber_length (l : List ACLRule) : ∀ p, (renumber p l).length = l.length := by
  induction l with
  | nil => intro p; rfl
  | cons x xs ih => intro p; simp [renumber, ih]

theorem renumber_append (a b : List ACLRule) : ∀ p, p < 65536 →
    renumber p (a ++ b) = renumber p a ++ renumber (advance p a.length) b := by
  induction a with
  | nil =>
    intro p hp
    simp [renumber, advance_zero hp]
  | cons x xs ih =>
    intro p hp
    simp only [List.cons_append, renumber, List.length_cons, List.cons.injEq, true_and,
      List.append_eq]
    rw [ih (nextPriority p) (nextPriority_lt p), nextPriority_eq_advance, advance_advance,
      Nat.add_comm 1 xs.length]

theorem renumber_map_priority (l : List ACLRule) : ∀ p, p < 65536 →
    (renumber p l).map ACLRule.Priority = (List.range l.length).map (advance p) := by
  induction l with
  | nil => intro p _; rfl
  | cons x xs ih =>
    intro p hp
    have hfun : advance (nextPriority p) = advance p ∘ Nat.succ := by
      funext k
      simp only [nextPriority_eq_advance, advance_advance, Function.comp_apply, advance]
      omega
    simp only [renumber, List.map_cons, List.length_cons, List.range_succ_eq_map,
      List.map_map, ih (nextPriority p) (nextPriority_lt p), hfun, advance_zero hp,
      List.cons.injEq, true_and]

/-! ## Refinement: the converter equals the renumbered spec expansion -/

theorem convertIngressFromLoop_eq (np : NetworkPolicy) (peers : List NetworkPolicyPeer) :
    ∀ p, p < 65536 →
    convertIngressFromLoop np peers p =
      (renumber p ((peers.filter isResolvable).map
        (fun q => specIngressPeerRule np (getPeerAddress q))),
       advance p (peers.filter isResolvable).length) := by
  induction peers with
  | nil =>
    intro p hp
    simp [convertIngressFromLoop, renumber, advance_zero hp]
  | cons peer rest ih =>
    intro p hp
    by_cases h : getPeerAddress peer = ""
    · have hres : isResolvable peer = false := by simp [isResolvable, h]
      simp only [convertIngressFromLoop, if_pos h, List.filter_cons, hres,
        Bool.false_eq_true, if_false]
      exact ih p hp
    · have hres : isResolvable peer = true := by simp [isResolvable, h]
      simp only [convertIngressFromLoop, if_neg h, List.filter_cons, hres, if_true,
        List.map_cons, List.length_cons, renumber, ih (nextPriority p) (nextPriority_lt p)]
      refine Prod.ext ?_ ?_
      · simp [specIngressPeerRule]
      · simp only [nextPriority_eq_advance, advance_advance, Nat.add_comm 1]

theorem convertIngressPortFromLoop_eq (np : NetworkPolicy) (port : NetworkPolicyPort)
    (peers : List NetworkPolicyPeer) :
    ∀ p, p < 65536 →
    convertIngressPortFromLoop np port peers p =
      (renumber p ((peers.filter isResolvable).map
        (fun q => specIngressPortPeerRule np port (getPeerAddress q))),
       advance p (peers.filter isResolvable).length) := by
  induction peers with
  | nil =>
    intro p hp
    simp [convertIngressPortFromLoop, renumber, advance_zero hp]
  | cons peer rest ih =>
    intro p hp
    by_cases h : getPeerAddress peer = ""
    · have hres : isResolvable peer = false := by simp [isResolvable, h]
      simp only [convertIngressPortFromLoop, if_pos h, List.filter_cons, hres,
        Bool.false_eq_true, if_false]
      exact ih p hp
    · have hres : isResolvable peer = true := by simp [isResolvable, h]
      simp only [convertIngressPortFromLoop, if_neg h, List.filter_cons, hres, if_true,
        List.map_cons, List.length_cons, renumber, ih (nextPriority p) (nextPriority_lt p)]
      refine Prod.ext ?_ ?_
      · simp [specIngressPortPeerRule]
      · simp only [nextPriority_eq_advance, advance_advance, Nat.add_comm 1]

theorem convertIngressPortLoop_eq (np : NetworkPolicy) (peers : List NetworkPolicyPeer)
    (ports : List NetworkPolicyPort) :
    ∀ p, p < 65536 →
    convertIngressPortLoop np peers ports p =
      (renumber p (ports.flatMap (specIngressPortExpansion np peers)),
       advance p (ports.flatMap (specIngressPortExpansion np peers)).length) := by
  induction ports with
  | nil =>
    intro p hp
    simp [convertIngressPortLoop, renumber, advance_zero hp]
  | cons port rest ih =>
    intro p hp
    cases hpe : peers.isEmpty with
    | true =>
      simp only [convertIngressPortLoop, hpe, if_true, List.flatMap_cons,
        specIngressPortExpansion, List.singleton_append, List.length_cons, renumber,
        ih (nextPriority p) (nextPriority_lt p)]
      refine Prod.ext ?_ ?_
      · simp [specIngressPortPeerRule]
      · simp only [nextPriority_eq_advance, advance_advance, Nat.add_comm 1]
    | false =>
      simp only [convertIngressPortLoop, hpe, Bool.false_eq_true, if_false,
        List.flatMap_cons]
      rw [convertIngressPortFromLoop_eq np port peers p hp,
        ih (advance p (peers.filter isResolvable).length) (advance_lt _ _)]
      have hexp : specIngressPortExpansion np peers port =
          (peers.filter isResolvable).map
            (fun q => specIngressPortPeerRule np port (getPeerAddress q)) := by
        simp [specIngressPortExpansion, hpe]
      refine Prod.ext ?_ ?_
      · rw [hexp, renumber_append _ _ p hp, List.length_map]
      · simp only [hexp, List.length_append, List.length_map, advance_advance]

theorem convertIngressRule_eq (np : NetworkPolicy) (r : NetworkPolicyIngressRule)
    (p : Nat) (hp : p < 65536) :
    convertIngressRule np r p =
      (renumber p (specIngressRuleExpansion np r),
       advance p (specIngressRuleExpansion np r).length) := by
  cases hports : r.Ports.isEmpty with
  | true =>
    cases hfrom : r.From.isEmpty with
    | true =>
      simp only [convertIngressRule, hports, hfrom, if_true, specIngressRuleExpansion,
        renumber, List.length_cons, List.length_nil]
      refine Prod.ext ?_ ?_
      · simp [specIngressPeerRule]
      · simp [nextPriority_eq_advance]
    | false =>
      simp only [convertIngressRule, hports, hfrom, if_true, Bool.false_eq_true, if_false,
        specIngressRuleExpansion]
      rw [convertIngressFromLoop_eq np r.From p hp, List.length_map]
  | false =>
    simp only [convertIngressRule, hports, Bool.false_eq_true, if_false,
      specIngressRuleExpansion]
    exact convertIngressPortLoop_eq np r.From r.Ports p hp

theorem convertIngressRules_eq (np : NetworkPolicy) (rs : List NetworkPolicyIngressRule) :
    ∀ p, p < 65536 →
    convertIngressRules np rs p =
      (renumber p (rs.flatMap (specIngressRuleExpansion np)),
       advance p (rs.flatMap (specIngressRuleExpansion np)).length) := by
  induction rs with
  | nil =>
    intro p hp
    simp [convertIngressRules, renumber, advance_zero hp]
  | cons r rest ih =>
    intro p hp
    simp only [convertIngressRules, List.flatMap_cons, convertIngressRule_eq np r p hp,
      ih (advance p (specIngressRuleExpansion np r).length) (advance_lt _ _)]
    refine Prod.ext ?_ ?_
    · rw [renumber_append _ _ p hp]
    · simp only [List.length_append, advance_advance]

theorem convertEgressToLoop_eq (np : NetworkPolicy) (peers : List NetworkPolicyPeer) :
    ∀ p, p < 65536 →
    convertEgressToLoop np peers p =
      (renumber p ((peers.filter isResolvable).map
        (fun q => specEgressPeerRule np (getPeerAddress q))),
       advance p (peers.filter isResolvable).length) := by
  induction peers with
  | nil =>
    intro p hp
    simp [convertEgressToLoop, renumber, advance_zero hp]
  | cons peer rest ih =>
    intro p hp
    by_cases h : getPeerAddress peer = ""
    · have hres : isResolvable peer = false := by simp [isResolvable, h]
      simp only [convertEgressToLoop, if_pos h, List.filter_cons, hres,
        Bool.false_eq_true, if_false]
      exact ih p hp
    · have hres : isResolvable peer = true := by simp [isResolvable, h]
      simp only [convertEgressToLoop, if_neg h, List.filter_cons, hres, if_true,
        List.map_cons, List.length_cons, renumber, ih (nextPriority p) (nextPriority_lt p)]
      refine Prod.ext ?_ ?_
      · simp [specEgressPeerRule]
      · simp only [nextPriority_eq_advance, advance_advance, Nat.add_comm 1]

theorem convertEgressPortToLoop_eq (np : NetworkPolicy) (port : NetworkPolicyPort)
    (peers : List NetworkPolicyPeer) :
    ∀ p, p < 65536 →
    convertEgressPortToLoop np port peers p =
      (renumber p ((peers.filter isResolvable).map
        (fun q => specEgressPortPeerRule np port (getPeerAddress q))),
       advance p (peers.filter isResolvable).length) := by
  induction peers with
  | nil =>
    intro p hp
    simp [convertEgressPortToLoop, renumber, advance_zero hp]
  | cons peer rest ih =>
    intro p hp
    by_cases h : getPeerAddress peer = ""
    · have hres : isResolvable peer = false := by simp [isResolvable, h]
      simp only [convertEgressPortToLoop, if_pos h, List.filter_cons, hres,
        Bool.false_eq_true, if_false]
      exact ih p hp
    · have hres : isResolvable peer = true := by simp [isResolvable, h]
      simp only [convertEgressPortToLoop, if_neg h, List.filter_cons, hres, if_true,
        List.map_cons, List.length_cons, renumber, ih (nextPriority p) (nextPriority_lt p)]
      refine Prod.ext ?_ ?_
      · simp [specEgressPortPeerRule]
      · simp only [nextPriority_eq_advance, advance_advance, Nat.add_comm 1]

theorem convertEgressPortLoop_eq (np : NetworkPolicy) (peers : List NetworkPolicyPeer)
    (ports : List NetworkPolicyPort) :
    ∀ p, p < 65536 →
    convertEgressPortLoop np peers ports p =
      (renumber p (ports.flatMap (specEgressPortExpansion np peers)),
       advance p (ports.flatMap (specEgressPortExpansion np peers)).length) := by
  induction ports with
  | nil =>
    intro p hp
    simp [convertEgressPortLoop, renumber, advance_zero hp]
  | cons port rest ih =>
    intro p hp
    cases hpe : peers.isEmpty with
    | true =>
      simp only [convertEgressPortLoop, hpe, if_true, List.flatMap_cons,
        specEgressPortExpansion, List.singleton_append, List.length_cons, renumber,
        ih (nextPriority p) (nextPriority_lt p)]
      refine Prod.ext ?_ ?_
      · simp [specEgressPortPeerRule]
      · simp only [nextPriority_eq_advance, advance_advance, Nat.add_comm 1]
    | false =>
      simp only [convertEgressPortLoop, hpe, Bool.false_eq_true, if_false,
        List.flatMap_cons]
      rw [convertEgressPortToLoop_eq np port peers p hp,
        ih (advance p (peers.filter isResolvable).length) (advance_lt _ _)]
      have hexp : specEgressPortExpansion np peers port =
          (peers.filter isResolvable).map
            (fun q => specEgressPortPeerRule np port (getPeerAddress q)) := by
        simp [specEgressPortExpansion, hpe]
      refine Prod.ext ?_ ?_
      · rw [hexp, renumber_append _ _ p hp, List.length_map]
      · simp only [hexp, List.length_append, List.length_map, advance_advance]

theorem convertEgressRule_eq (np : NetworkPolicy) (r : NetworkPolicyEgressRule)
    (p : Nat) (hp : p < 65536) :
    convertEgressRule np r p =
      (renumber p (specEgressRuleExpansion np r),
       advance p (specEgressRuleExpansion np r).length) := by
  cases hports : r.Ports.isEmpty with
  | true =>
    cases hto : r.To.isEmpty with
    | true =>
      simp only [convertEgressRule, hports, hto, if_true, specEgressRuleExpansion,
        renumber, List.length_cons, List.length_nil]
      refine Prod.ext ?_ ?_
      · simp [specEgressPeerRule]
      · simp [nextPriority_eq_advance]
    | false =>
      simp only [convertEgressRule, hports, hto, if_true, Bool.false_eq_true, if_false,
        specEgressRuleExpansion]
      rw [convertEgressToLoop_eq np r.To p hp, List.length_map]
  | false =>
    simp only [convertEgressRule, hports, Bool.false_eq_true, if_false,
      specEgressRuleExpansion]
    exact convertEgressPortLoop_eq np r.To r.Ports p hp

theorem convertEgressRules_eq (np : NetworkPolicy) (rs : List NetworkPolicyEgressRule) :
    ∀ p, p < 65536 →
    convertEgressRules np rs p =
      (renumber p (rs.flatMap (specEgressRuleExpansion np)),
       advance p (rs.flatMap (specEgressRuleExpansion np)).length) := by
  induction rs with
  | nil =>
    intro p hp
    simp [convertEgressRules, renumber, advance_zero hp]
  | cons r rest ih =>
    intro p hp
    simp only [convertEgressRules, List.flatMap_cons, convertEgressRule_eq np r p hp,
      ih (advance p (specEgressRuleExpansion np r).length) (advance_lt _ _)]
    refine Prod.ext ?_ ?_
    · rw [renumber_append _ _ p hp]
    · simp only [List.length_append, advance_advance]

/-- Master refinement: the source converter is exactly the spec expansion
with emission-order priorities starting at 100 (uint16 wrap included). -/
theorem networkPolicyToACLRules_eq_renumber (np : NetworkPolicy) :
    NetworkPolicyToACLRules np = renumber 100 (specExpansion np) := by
  simp only [NetworkPolicyToACLRules, specExpansion]
  rw [convertIngressRules_eq np np.Ingress 100 (by norm_num),
    convertEgressRules_eq np np.Egress _ (advance_lt _ _)]
  dsimp only
  rw [renumber_append _ _ 100 (by norm_num)]

/-! ## Length / count lemmas -/

theorem length_flatMap_const {α β : Type} (l : List α) (f : α → List β) (c : Nat)
    (h : ∀ a, (f a).length = c) : (l.flatMap f).length = l.length * c := by
  induction l with
  | nil => simp
  | cons x xs ih =>
    simp [List.flatMap_cons, h, ih, Nat.succ_mul, Nat.add_comm]

theorem length_specIngressPortExpansion (np : NetworkPolicy)
    (peers : List NetworkPolicyPeer) (port : NetworkPolicyPort) :
    (specIngressPortExpansion np peers port).length = peerFactor peers := by
  cases hpe : peers.isEmpty <;> simp [specIngressPortExpansion, peerFactor, hpe]

theorem length_specEgressPortExpansion (np : NetworkPolicy)
    (peers : List NetworkPolicyPeer) (port : NetworkPolicyPort) :
    (specEgressPortExpansion np peers port).length = peerFactor peers := by
  cases hpe : peers.isEmpty <;> simp [specEgressPortExpansion, peerFactor, hpe]

theorem length_specIngressRuleExpansion (np : NetworkPolicy)
    (r : NetworkPolicyIngressRule) :
    (specIngressRuleExpansion np r).length = ruleExpansionCount r.Ports r.From := by
  cases hports : r.Ports.isEmpty with
  | true =>
    cases hfrom : r.From.isEmpty <;>
      simp [specIngressRuleExpansion, ruleExpansionCount, peerFactor, hports, hfrom]
  | false =>
    simp only [specIngressRuleExpansion, hports, Bool.false_eq_true, if_false,
      ruleExpansionCount]
    exact length_flatMap_const _ _ _ (length_specIngressPortExpansion np r.From)

theorem length_specEgressRuleExpansion (np : NetworkPolicy)
    (r : NetworkPolicyEgressRule) :
    (specEgressRuleExpansion np r).length = ruleExpansionCount r.Ports r.To := by
  cases hports : r.Ports.isEmpty with
  | true =>
    cases hto : r.To.isEmpty <;>
      simp [specEgressRuleExpansion, ruleExpansionCount, peerFactor, hports, hto]
  | false =>
    simp only [specEgressRuleExpansion, hports, Bool.false_eq_true, if_false,
      ruleExpansionCount]
    exact length_flatMap_const _ _ _ (length_specEgressPortExpansion np r.To)

theorem length_specExpansion (np : NetworkPolicy) :
    (specExpansion np).length = totalExpansionCount np := by
  have hi : (List.length ∘ specIngressRuleExpansion np) =
      fun r => ruleExpansionCount r.Ports r.From := by
    funext r
    exact length_specIngressRuleExpansion np r
  have he : (List.length ∘ specEgressRuleExpansion np) =
      fun r => ruleExpansionCount r.Ports r.To := by
    funext r
    exact length_specEgressRuleExpansion np r
  simp only [specExpansion, List.length_append, List.length_flatMap, hi, he,
    totalExpansionCount]

/-- The converter's output length is the spec §8 sum of expansions. -/
theorem length_networkPolicyToACLRules (np : NetworkPolicy) :
    (NetworkPolicyToACLRules np).length = totalExpansionCount np := by
  rw [networkPolicyToACLRules_eq_renumber, renumber_length, length_specExpansion]

/-- The k-th emitted rule carries priority `(100 + k) mod 2^16`. -/
theorem priorities_map (np : NetworkPolicy) :
    (NetworkPolicyToACLRules np).map ACLRule.Priority =
      (List.range (totalExpansionCount np)).map (fun k => (100 + k) % 65536) := by
  rw [networkPolicyToACLRules_eq_renumber,
    renumber_map_priority _ 100 (by norm_num), length_specExpansion]
  rfl

/-! ## Behaviour of the priority sequence `(100 + k) % 65536` -/

theorem prio_chain_of_le (n : Nat) (h : n ≤ 65436) :
    List.Chain' (· < ·) ((List.range n).map (fun k => (100 + k) % 65536)) := by
  rw [List.chain'_iff_get]
  intro i hi
  simp only [List.length_map, List.length_range] at hi
  simp only [List.get_eq_getElem, List.getElem_map, List.getElem_range]
  omega

theorem prio_not_chain_of_gt (n : Nat) (h : 65436 < n) :
    ¬ List.Chain' (· < ·) ((List.range n).map (fun k => (100 + k) % 65536)) := by
  rw [List.chain'_iff_get]
  intro hc
  have hlen : 65435 < ((List.range n).map (fun k => (100 + k) % 65536)).length - 1 := by
    simp only [List.length_map, List.length_range]
    omega
  have := hc 65435 hlen
  simp only [List.get_eq_getElem, List.getElem_map, List.getElem_range] at this
  omega

theorem prio_nodup_of_le (n : Nat) (h : n ≤ 65536) :
    ((List.range n).map (fun k => (100 + k) % 65536)).Nodup := by
  refine List.Nodup.map_on ?_ (List.nodup_range n)
  intro x hx y hy hxy
  rw [List.mem_range] at hx hy
  omega

theorem prio_not_nodup_of_gt (n : Nat) (h : 65536 < n) :
    ¬ ((List.range n).map (fun k => (100 + k) % 65536)).Nodup := by
  intro hnd
  rw [List.nodup_iff_injective_get] at hnd
  have h0 : 0 < ((List.range n).map (fun k => (100 + k) % 65536)).length := by
    simp only [List.length_map, List.length_range]
    omega
  have h1 : 65536 < ((List.range n).map (fun k => (100 + k) % 65536)).length := by
    simp only [List.length_map, List.length_range]
    omega
  have heq : ((List.range n).map (fun k => (100 + k) % 65536)).get ⟨0, h0⟩ =
      ((List.range n).map (fun k => (100 + k) % 65536)).get ⟨65536, h1⟩ := by
    simp only [List.get_eq_getElem, List.getElem_map, List.getElem_range]
  have := hnd heq
  simp only [Fin.mk.injEq] at this
  omega

/-! ## Tracking-index lemmas -/

theorem lookupPolicy_setPolicy (st : TrackingIndex) (key : String) (v : List RuleSet) :
    lookupPolicy (setPolicy st key v) key = some v := by
  simp [setPolicy, lookupPolicy]

theorem lookupPolicy_deletePolicy (st : TrackingIndex) (key : String) :
    lookupPolicy (deletePolicy st key) key = none := by
  induction st with
  | nil => rfl
  | cons kv rest ih =>
    by_cases h : kv.1 = key
    · have hb : (kv.1 != key) = false := by simp [h]
      simp only [deletePolicy, List.filter_cons, hb, Bool.false_eq_true, if_false]
      exact ih
    · have hb : (kv.1 != key) = true := by simp [h]
      have hfind : (kv.1 == key) = false := by simp [h]
      simp only [deletePolicy, List.filter_cons, hb, if_true, lookupPolicy,
        List.find?_cons, hfind]
      exact ih

theorem mem_listTrackedPolicies_setPolicy (st : TrackingIndex) (key : String)
    (v : List RuleSet) : key ∈ ListTrackedPolicies (setPolicy st key v) := by
  simp [ListTrackedPolicies, setPolicy]

/-! ## Apply-loop characterization -/

/-- Whether installing on `ep` succeeds, for a given policy build. -/
def applySucceeds (host : Host) (policies : List EndpointPolicy)
    (ep : HostComputeEndpoint) : Bool :=
  (host.applyEndpointPolicy ep .Add ⟨policies⟩).isNone

/-- Number of endpoints whose install fails (the `M` of the spec). -/
def applyFailCount (host : Host) (policies : List EndpointPolicy)
    (eps : List HostComputeEndpoint) : Nat :=
  eps.countP (fun ep => (host.applyEndpointPolicy ep .Add ⟨policies⟩).isSome)

/-- The `AppliedRuleSet`s of exactly the successful endpoints, in endpoint
order. -/
def successfulRuleSets (host : Host) (policies : List EndpointPolicy)
    (eps : List HostComputeEndpoint) : List RuleSet :=
  (eps.filter (applySucceeds host policies)).map
    (fun ep => { EndpointID := ep.Id, Policies := policies })

theorem applyToEndpoints_ruleSets (host : Host) (policies : List EndpointPolicy) :
    ∀ eps, (applyToEndpoints host policies eps).1 =
      successfulRuleSets host policies eps := by
  intro eps
  induction eps with
  | nil => rfl
  | cons ep rest ih =>
    cases h : host.applyEndpointPolicy ep .Add ⟨policies⟩ with
    | some e =>
      simp only [applyToEndpoints, successfulRuleSets, List.filter_cons, applySucceeds, h,
        Option.isNone_some, Bool.false_eq_true, if_false]
      exact ih
    | none =>
      simp only [applyToEndpoints, successfulRuleSets, List.filter_cons, applySucceeds, h,
        Option.isNone_none, if_true, List.map_cons]
      simp only [successfulRuleSets, applySucceeds] at ih
      rw [ih]

theorem applyToEndpoints_errs_length (host : Host) (policies : List EndpointPolicy) :
    ∀ eps, (applyToEndpoints host policies eps).2.1.length =
      applyFailCount host policies eps := by
  intro eps
  induction eps with
  | nil => rfl
  | cons ep rest ih =>
    cases h : host.applyEndpointPolicy ep .Add ⟨policies⟩ with
    | some e =>
      simp only [applyToEndpoints, applyFailCount, List.countP_cons, h,
        Option.isSome_some, List.length_cons, if_true]
      simp only [applyFailCount] at ih
      rw [ih]
    | none =>
      simp only [applyToEndpoints, applyFailCount, List.countP_cons, h,
        Option.isSome_none, Bool.false_eq_true, if_false, Nat.add_zero]
      exact ih

theorem applyToEndpoints_trace (host : Host) (policies : List EndpointPolicy) :
    ∀ eps, (applyToEndpoints host policies eps).2.2 =
      eps.map (fun ep => HostCall.applyPolicy ep.Id) := by
  intro eps
  induction eps with
  | nil => rfl
  | cons ep rest ih =>
    cases h : host.applyEndpointPolicy ep .Add ⟨policies⟩ <;>
      simp only [applyToEndpoints, List.map_cons, h] <;> rw [ih]

/-! ## Remove-loop characterization -/

/-- Whether removal for one recorded rule set fails (endpoint lookup or
policy removal). -/
def removeFails (host : Host) (rs : RuleSet) : Bool :=
  match host.getEndpointByID rs.EndpointID with
  | .error _ => true
  | .ok ep => (host.removeEndpointPolicy ep .Remove ⟨rs.Policies⟩).isSome

/-- The host calls made for one recorded rule set during removal. -/
def removeTraceOf (host : Host) (rs : RuleSet) : List HostCall :=
  match host.getEndpointByID rs.EndpointID with
  | .error _ => [.getEndpoint rs.EndpointID]
  | .ok _ => [.getEndpoint rs.EndpointID, .removePolicy rs.EndpointID]

theorem removeFromRuleSets_errs_length (host : Host) :
    ∀ l, (removeFromRuleSets host l).1.length = l.countP (removeFails host) := by
  intro l
  induction l with
  | nil => rfl
  | cons rs rest ih =>
    cases hg : host.getEndpointByID rs.EndpointID with
    | error e =>
      simp only [removeFromRuleSets, List.countP_cons, removeFails, hg,
        List.length_cons, if_true]
      rw [ih]
    | ok ep =>
      cases hr : host.removeEndpointPolicy ep .Remove ⟨rs.Policies⟩ with
      | some e =>
        simp only [removeFromRuleSets, List.countP_cons, removeFails, hg, hr,
          Option.isSome_some, List.length_cons, if_true]
        rw [ih]
      | none =>
        simp only [removeFromRuleSets, List.countP_cons, removeFails, hg, hr,
          Option.isSome_none, Bool.false_eq_true, if_false, Nat.add_zero]
        exact ih

theorem removeFromRuleSets_trace (host : Host) :
    ∀ l, (removeFromRuleSets host l).2 = l.flatMap (removeTraceOf host) := by
  intro l
  induction l with
  | nil => rfl
  | cons rs rest ih =>
    cases hg : host.getEndpointByID rs.EndpointID with
    | error e =>
      simp only [removeFromRuleSets, List.flatMap_cons, removeTraceOf, hg,
        List.cons_append, List.nil_append]
      rw [ih]
    | ok ep =>
      cases hr : host.removeEndpointPolicy ep .Remove ⟨rs.Policies⟩ <;>
        simp only [removeFromRuleSets, List.flatMap_cons, removeTraceOf, hg, hr,
          List.cons_append, List.nil_append] <;> rw [ih]

theorem countP_add_countP_not {α : Type} (l : List α) (p : α → Bool) :
    l.countP p + l.countP (fun a => !(p a)) = l.length := by
  induction l with
  | nil => rfl
  | cons x xs ih => by_cases h : p x <;> simp [List.countP_cons, h] <;> omega

theorem length_successfulRuleSets (host : Host) (policies : List EndpointPolicy)
    (eps : List HostComputeEndpoint) :
    (successfulRuleSets host policies eps).length =
      eps.length - applyFailCount host policies eps := by
  have hsplit := countP_add_countP_not eps
    (fun ep => (host.applyEndpointPolicy ep .Add ⟨policies⟩).isSome)
  have hnone : ∀ ep : HostComputeEndpoint,
      applySucceeds host policies ep =
        !((host.applyEndpointPolicy ep .Add ⟨policies⟩).isSome) := by
    intro ep
    simp only [applySucceeds]
    cases host.applyEndpointPolicy ep .Add ⟨policies⟩ <;> rfl
  have hfun : applySucceeds host policies =
      fun ep => !((host.applyEndpointPolicy ep .Add ⟨policies⟩).isSome) := funext hnone
  simp only [successfulRuleSets, List.length_map, ← List.countP_eq_length_filter, hfun,
    applyFailCount]
  omega

/-! ## Top-level characterization of apply and remove -/

/-- `ApplyACLRules` on the main path (enumeration succeeded with at least
one endpoint, and the policy build succeeded). -/
theorem ApplyACLRules_ok (host : Host) (st : TrackingIndex) (key : String)
    (rules : List ACLRule) (endpoints : List HostComputeEndpoint)
    (policies : List EndpointPolicy)
    (h1 : host.listEndpoints = .ok endpoints) (h2 : endpoints ≠ [])
    (h3 : buildPolicies host.marshal rules = .ok policies) :
    ApplyACLRules host st key rules =
      (setPolicy st key (successfulRuleSets host policies endpoints),
       (if applyFailCount host policies endpoints = 0 then none
        else some (.applyAggregate (applyFailCount host policies endpoints)
          endpoints.length (applyToEndpoints host policies endpoints).2.1)),
       .listEndpoints :: endpoints.map (fun ep => HostCall.applyPolicy ep.Id)) := by
  have hne : endpoints.isEmpty = false := by
    cases endpoints with
    | nil => exact absurd rfl h2
    | cons a l => rfl
  by_cases hM : applyFailCount host policies endpoints = 0
  · have herr : (applyToEndpoints host policies endpoints).2.1 = [] := by
      have hl := applyToEndpoints_errs_length host policies endpoints
      rw [hM] at hl
      exact List.length_eq_zero.mp hl
    simp only [ApplyACLRules, h1, hne, Bool.false_eq_true, if_false, h3, herr,
      List.isEmpty_nil, if_true, hM, applyToEndpoints_ruleSets,
      applyToEndpoints_trace]
  · have herr : (applyToEndpoints host policies endpoints).2.1.isEmpty = false := by
      cases hE : (applyToEndpoints host policies endpoints).2.1 with
      | nil =>
        exfalso
        apply hM
        rw [← applyToEndpoints_errs_length, hE]
        rfl
      | cons a l => rfl
    simp only [ApplyACLRules, h1, hne, Bool.false_eq_true, if_false, h3, herr,
      applyToEndpoints_ruleSets, applyToEndpoints_trace,
      applyToEndpoints_errs_length, if_neg hM]

/-- `ApplyACLRules` aborts untouched when enumeration fails. -/
theorem ApplyACLRules_enumFail (host : Host) (st : TrackingIndex) (key : String)
    (rules : List ACLRule) (e : String) (h : host.listEndpoints = .error e) :
    ApplyACLRules host st key rules =
      (st, some (.listEndpointsFailed e), [.listEndpoints]) := by
  simp [ApplyACLRules, h]

/-- `ApplyACLRules` is a stateless no-op success on zero endpoints. -/
theorem ApplyACLRules_zeroEndpoints (host : Host) (st : TrackingIndex) (key : String)
    (rules : List ACLRule) (h : host.listEndpoints = .ok []) :
    ApplyACLRules host st key rules = (st, none, [.listEndpoints]) := by
  simp [ApplyACLRules, h]

/-- `ApplyACLRules` aborts untouched when the policy build fails. -/
theorem ApplyACLRules_buildFail (host : Host) (st : TrackingIndex) (key : String)
    (rules : List ACLRule) (endpoints : List HostComputeEndpoint) (e : String)
    (h1 : host.listEndpoints = .ok endpoints) (h2 : endpoints ≠ [])
    (h3 : buildPolicies host.marshal rules = .error e) :
    ApplyACLRules host st key rules =
      (st, some (.buildPoliciesFailed e), [.listEndpoints]) := by
  have hne : endpoints.isEmpty = false := by
    cases endpoints with
    | nil => exact absurd rfl h2
    | cons a l => rfl
  simp [ApplyACLRules, h1, hne, h3]

/-- `RemoveACLRules` on an untracked key: no-op success, no host calls. -/
theorem RemoveACLRules_untracked (host : Host) (st : TrackingIndex) (key : String)
    (h : lookupPolicy st key = none) :
    RemoveACLRules host st key = (st, none, []) := by
  simp [RemoveACLRules, h]

/-- `RemoveACLRules` on a tracked key: eager deletion, best-effort pass over
every recorded rule set, aggregate error iff any removal failed. -/
theorem RemoveACLRules_tracked (host : Host) (st : TrackingIndex) (key : String)
    (ruleSets : List RuleSet) (h : lookupPolicy st key = some ruleSets) :
    RemoveACLRules host st key =
      (deletePolicy st key,
       (if ruleSets.countP (removeFails host) = 0 then none
        else some (.removeAggregate (ruleSets.countP (removeFails host)) ruleSets.length
          (removeFromRuleSets host ruleSets).1)),
       ruleSets.flatMap (removeTraceOf host)) := by
  by_cases hM : ruleSets.countP (removeFails host) = 0
  · have herr : (removeFromRuleSets host ruleSets).1 = [] := by
      have hl := removeFromRuleSets_errs_length host ruleSets
      rw [hM] at hl
      exact List.length_eq_zero.mp hl
    simp only [RemoveACLRules, h, herr, List.isEmpty_nil, if_true, hM,
      removeFromRuleSets_trace]
  · have herr : (removeFromRuleSets host ruleSets).1.isEmpty = false := by
      cases hE : (removeFromRuleSets host ruleSets).1 with
      | nil =>
        exfalso
        apply hM
        rw [← removeFromRuleSets_errs_length, hE]
        rfl
      | cons a l => rfl
    simp only [RemoveACLRules, h, herr, Bool.false_eq_true, if_false,
      removeFromRuleSets_trace, removeFromRuleSets_errs_length, if_neg hM]

/-- After any `RemoveACLRules` call the key is absent from tracking. -/
theorem lookup_remove_self (host : Host) (st : TrackingIndex) (key : String) :
    lookupPolicy (RemoveACLRules host st key).1 key = none := by
  cases h : lookupPolicy st key with
  | none =>
    rw [RemoveACLRules_untracked host st key h]
    exact h
  | some ruleSets =>
    rw [RemoveACLRules_tracked host st key ruleSets h]
    exact lookupPolicy_deletePolicy st key

/-! ## Non-address peers are skipped without error -/

theorem convertIngressFromLoop_skip (np : NetworkPolicy) :
    ∀ (peers : List NetworkPolicyPeer) (p : Nat), (∀ q ∈ peers, q.IPBlock = none) →
    convertIngressFromLoop np peers p = ([], p) := by
  intro peers
  induction peers with
  | nil => intro p _; rfl
  | cons peer rest ih =>
    intro p h
    have haddr : getPeerAddress peer = "" := by
      simp [getPeerAddress, h peer (List.mem_cons_self peer rest)]
    simp only [convertIngressFromLoop, if_pos haddr]
    exact ih p (fun q hq => h q (List.mem_cons_of_mem peer hq))

theorem convertIngressPortFromLoop_skip (np : NetworkPolicy) (port : NetworkPolicyPort) :
    ∀ (peers : List NetworkPolicyPeer) (p : Nat), (∀ q ∈ peers, q.IPBlock = none) →
    convertIngressPortFromLoop np port peers p = ([], p) := by
  intro peers
  induction peers with
  | nil => intro p _; rfl
  | cons peer rest ih =>
    intro p h
    have haddr : getPeerAddress peer = "" := by
      simp [getPeerAddress, h peer (List.mem_cons_self peer rest)]
    simp only [convertIngressPortFromLoop, if_pos haddr]
    exact ih p (fun q hq => h q (List.mem_cons_of_mem peer hq))

theorem convertIngressPortLoop_skip (np : NetworkPolicy) (peers : List NetworkPolicyPeer)
    (hne : peers ≠ []) (h : ∀ q ∈ peers, q.IPBlock = none) :
    ∀ (ports : List NetworkPolicyPort) (p : Nat),
    convertIngressPortLoop np peers ports p = ([], p) := by
  have hE : peers.isEmpty = false := by
    cases peers with
    | nil => exact absurd rfl hne
    | cons a l => rfl
  intro ports
  induction ports with
  | nil => intro p; rfl
  | cons port rest ih =>
    intro p
    simp only [convertIngressPortLoop, hE, Bool.false_eq_true, if_false,
      convertIngressPortFromLoop_skip np port peers p h]
    simpa using ih p

theorem convertEgressToLoop_skip (np : NetworkPolicy) :
    ∀ (peers : List NetworkPolicyPeer) (p : Nat), (∀ q ∈ peers, q.IPBlock = none) →
    convertEgressToLoop np peers p = ([], p) := by
  intro peers
  induction peers with
  | nil => intro p _; rfl
  | cons peer rest ih =>
    intro p h
    have haddr : getPeerAddress peer = "" := by
      simp [getPeerAddress, h peer (List.mem_cons_self peer rest)]
    simp only [convertEgressToLoop, if_pos haddr]
    exact ih p (fun q hq => h q (List.mem_cons_of_mem peer hq))

theorem convertEgressPortToLoop_skip (np : NetworkPolicy) (port : NetworkPolicyPort) :
    ∀ (peers : List NetworkPolicyPeer) (p : Nat), (∀ q ∈ peers, q.IPBlock = none) →
    convertEgressPortToLoop np port peers p = ([], p) := by
  intro peers
  induction peers with
  | nil => intro p _; rfl
  | cons peer rest ih =>
    intro p h
    have haddr : getPeerAddress peer = "" := by
      simp [getPeerAddress, h peer (List.mem_cons_self peer rest)]
    simp only [convertEgressPortToLoop, if_pos haddr]
    exact ih p (fun q hq => h q (List.mem_cons_of_mem peer hq))

theorem convertEgressPortLoop_skip (np : NetworkPolicy) (peers : List NetworkPolicyPeer)
    (hne : peers ≠ []) (h : ∀ q ∈ peers, q.IPBlock = none) :
    ∀ (ports : List NetworkPolicyPort) (p : Nat),
    convertEgressPortLoop np peers ports p = ([], p) := by
  have hE : peers.isEmpty = false := by
    cases peers with
    | nil => exact absurd rfl hne
    | cons a l => rfl
  intro ports
  induction ports with
  | nil => intro p; rfl
  | cons port rest ih =>
    intro p
    simp only [convertEgressPortLoop, hE, Bool.false_eq_true, if_false,
      convertEgressPortToLoop_skip np port peers p h]
    simpa using ih p

/-! ## Concrete fixtures for witnesses and counterexamples -/

/-- The 65437-peer policy that forces the uint16 priority counter to wrap. -/
def bigPolicy : NetworkPolicy :=
  { Namespace := "stress", Name := "wrap"
    Ingress := [{ Ports := [],
                  From := List.replicate 65437 { IPBlock := some ⟨"10.0.0.0/8"⟩ } }]
    Egress := [] }

theorem filter_replicate_pos {α : Type} (n : Nat) (a : α) (p : α → Bool)
    (h : p a = true) : (List.replicate n a).filter p = List.replicate n a := by
  induction n with
  | zero => rfl
  | succ m ih => simp [List.replicate_succ, List.filter_cons, h, ih]

theorem peerFactor_replicate (n : Nat) (hn : n ≠ 0) (b : IPBlock) (hb : b.CIDR ≠ "") :
    peerFactor (List.replicate n ({ IPBlock := some b } : NetworkPolicyPeer)) = n := by
  have hres : isResolvable ({ IPBlock := some b } : NetworkPolicyPeer) = true := by
    simp [isResolvable, getPeerAddress, hb]
  cases n with
  | zero => exact absurd rfl hn
  | succ m =>
    have hE : (List.replicate (m + 1)
        ({ IPBlock := some b } : NetworkPolicyPeer)).isEmpty = false := by
      rw [List.replicate_succ]
      rfl
    simp only [peerFactor, hE, Bool.false_eq_true, if_false,
      filter_replicate_pos _ _ _ hres, List.length_replicate]

theorem replicatePolicy_total (n : Nat) (hn : n ≠ 0) :
    totalExpansionCount
      { Namespace := "stress", Name := "wrap"
        Ingress := [{ Ports := [],
                      From := List.replicate n { IPBlock := some ⟨"10.0.0.0/8"⟩ } }]
        Egress := [] } = n := by
  have h := peerFactor_replicate n hn ⟨"10.0.0.0/8"⟩ (by decide)
  simp only [totalExpansionCount, List.map_cons, List.map_nil, List.sum_cons,
    List.sum_nil, ruleExpansionCount, List.isEmpty_nil, if_true, h, Nat.add_zero]

theorem bigPolicy_total : totalExpansionCount bigPolicy = 65437 :=
  replicatePolicy_total 65437 (by norm_num)

/-- A small two-port, two-peer policy (the spec §8 example, 4 rules). -/
def smallPolicy : NetworkPolicy :=
  { Namespace := "default", Name := "allow-web"
    Ingress := [{ Ports := [{ Protocol := some "TCP", Port := some (.intVal 80) },
                            { Protocol := some "TCP", Port := some (.intVal 443) }],
                  From := [{ IPBlock := some ⟨"10.0.0.0/8"⟩ },
                           { IPBlock := some ⟨"192.168.0.0/16"⟩ }] }]
    Egress := [] }

/-- Host double: two endpoints, install fails on the second one only. -/
def wHostApply : Host :=
  { listEndpoints := .ok [⟨"e1", "ep-1"⟩, ⟨"e2", "ep-2"⟩]
    applyEndpointPolicy := fun ep _ _ => if ep.Id = "e2" then some "access denied" else none
    getEndpointByID := fun i => .error ("not found: " ++ i)
    removeEndpointPolicy := fun _ _ _ => none
    marshal := fun _ => .ok "acl-json" }

/-- Host double: a single endpoint on which every policy install fails. -/
def wHostAllFail : Host :=
  { listEndpoints := .ok [⟨"e1", "ep-1"⟩]
    applyEndpointPolicy := fun _ _ _ => some "hns unreachable"
    getEndpointByID := fun i => .error ("not found: " ++ i)
    removeEndpointPolicy := fun _ _ _ => some "hns unreachable"
    marshal := fun _ => .ok "acl-json" }

/-- Host double whose endpoint enumeration fails. -/
def wHostEnumFail : Host :=
  { listEndpoints := .error "hns unavailable"
    applyEndpointPolicy := fun _ _ _ => none
    getEndpointByID := fun i => .error ("not found: " ++ i)
    removeEndpointPolicy := fun _ _ _ => none
    marshal := fun _ => .ok "acl-json" }

/-- Host double whose JSON encoding fails. -/
def wHostEncodeFail : Host :=
  { listEndpoints := .ok [⟨"e1", "ep-1"⟩]
    applyEndpointPolicy := fun _ _ _ => none
    getEndpointByID := fun i => .error ("not found: " ++ i)
    removeEndpointPolicy := fun _ _ _ => none
    marshal := fun _ => .error "unsupported value" }

/-- Host double that reports zero endpoints. -/
def wHostZero : Host :=
  { listEndpoints := .ok []
    applyEndpointPolicy := fun _ _ _ => none
    getEndpointByID := fun i => .error ("not found: " ++ i)
    removeEndpointPolicy := fun _ _ _ => none
    marshal := fun _ => .ok "acl-json" }

/-- A sample converted rule, for exercising the encode path. -/
def sampleRule : ACLRule :=
  { Name := "default/web-ingress", Action := .ActionTypeAllow,
    Direction := .DirectionTypeIn, Protocol := "6", LocalPorts := "80",
    RemoteAddresses := "0.0.0.0/0", Priority := 100 }

/-- A pre-existing tracking entry, used to exercise overwrite behaviour. -/
def preSt : TrackingIndex :=
  [("default/web", [{ EndpointID := "stale", Policies := [] }])]

/-! ## Claim theorems -/

/-- C1 counterexample: the claim asserts strictly increasing priorities for
*every* NetworkPolicy, but the priority counter is a uint16.  A policy with
one ingress rule carrying 65437 resolvable peers expands to 65437 rules,
and the priority of rule 65436 wraps to 0, below the 65535 of rule 65435,
so the emitted priorities are not strictly increasing. -/
theorem C1_counterexample :
    (NetworkPolicyToACLRules bigPolicy).length = 65437 ∧
    ¬ List.Chain' (· < ·) ((NetworkPolicyToACLRules bigPolicy).map ACLRule.Priority) := by
  constructor
  · rw [length_networkPolicyToACLRules, bigPolicy_total]
  · rw [priorities_map, bigPolicy_total]
    exact prio_not_chain_of_gt 65437 (by norm_num)

/-- C1 (amended): for every NetworkPolicy the converter output is exactly
the spec §4.1 expansion — per ingress/egress rule the port × resolvable-peer
cross-product in port-outer, peer-inner order, with the documented
empty-list defaults, all ingress rules before all egress rules, each in
spec order — renumbered with priorities `(100 + k) mod 2^16` in emission
order; the total is the sum of all expansions, and the priorities are
strictly increasing whenever the policy expands to at most 65436 rules. -/
theorem C1_expansion_and_priorities (np : NetworkPolicy) :
    NetworkPolicyToACLRules np = renumber 100 (specExpansion np) ∧
    (NetworkPolicyToACLRules np).length = totalExpansionCount np ∧
    (NetworkPolicyToACLRules np).map ACLRule.Priority =
      (List.range (totalExpansionCount np)).map (fun k => (100 + k) % 65536) ∧
    (totalExpansionCount np ≤ 65436 →
      List.Chain' (· < ·) ((NetworkPolicyToACLRules np).map ACLRule.Priority)) := by
  refine ⟨networkPolicyToACLRules_eq_renumber np, length_networkPolicyToACLRules np,
    priorities_map np, ?_⟩
  intro h
  rw [priorities_map]
  exact prio_chain_of_le _ h

/-- C1 witness: the two-port × two-peer example expands to 4 ≤ 65436 rules
and its priorities are strictly increasing. -/
theorem C1_expansion_and_priorities_witness :
    totalExpansionCount smallPolicy ≤ 65436 ∧
    List.Chain' (· < ·) ((NetworkPolicyToACLRules smallPolicy).map ACLRule.Priority) :=
  ⟨by decide, (C1_expansion_and_priorities smallPolicy).2.2.2 (by decide)⟩

/-- C6: conversion is total (a plain function into `List ACLRule`, no error
channel) and a directional rule all of whose peers are non-address peers
(selector peers) emits zero rules and leaves the priority counter
untouched, for ingress and egress alike, with or without ports. -/
theorem C6_unresolvable_peers_skipped (np : NetworkPolicy)
    (rIn : NetworkPolicyIngressRule) (rEg : NetworkPolicyEgressRule) (p : Nat)
    (hIn1 : rIn.From ≠ []) (hIn2 : ∀ q ∈ rIn.From, q.IPBlock = none)
    (hEg1 : rEg.To ≠ []) (hEg2 : ∀ q ∈ rEg.To, q.IPBlock = none) :
    convertIngressRule np rIn p = ([], p) ∧ convertEgressRule np rEg p = ([], p) := by
  have hInE : rIn.From.isEmpty = false := by
    cases hF : rIn.From with
    | nil => exact absurd hF hIn1
    | cons a l => rfl
  have hEgE : rEg.To.isEmpty = false := by
    cases hF : rEg.To with
    | nil => exact absurd hF hEg1
    | cons a l => rfl
  constructor
  · cases hPE : rIn.Ports.isEmpty with
    | true =>
      simp only [convertIngressRule, hPE, if_true, hInE, Bool.false_eq_true, if_false]
      exact convertIngressFromLoop_skip np rIn.From p hIn2
    | false =>
      simp only [convertIngressRule, hPE, Bool.false_eq_true, if_false]
      exact convertIngressPortLoop_skip np rIn.From hIn1 hIn2 rIn.Ports p
  · cases hPE : rEg.Ports.isEmpty with
    | true =>
      simp only [convertEgressRule, hPE, if_true, hEgE, Bool.false_eq_true, if_false]
      exact convertEgressToLoop_skip np rEg.To p hEg2
    | false =>
      simp only [convertEgressRule, hPE, Bool.false_eq_true, if_false]
      exact convertEgressPortLoop_skip np rEg.To hEg1 hEg2 rEg.Ports p

/-- A policy namespace/name fixture for the C6 witness. -/
def npW : NetworkPolicy := { Namespace := "default", Name := "sel" }

/-- C6 witness: a rule whose single peer is a pod-selector peer emits no
rules. -/
theorem C6_unresolvable_peers_skipped_witness :
    (([{ PodSelector := true }] : List NetworkPolicyPeer) ≠ []) ∧
    (∀ q ∈ ([{ PodSelector := true }] : List NetworkPolicyPeer), q.IPBlock = none) ∧
    convertIngressRule npW { Ports := [], From := [{ PodSelector := true }] } 100 =
      ([], 100) ∧
    convertEgressRule npW { Ports := [], To := [{ PodSelector := true }] } 100 =
      ([], 100) :=
  ⟨by decide, by decide,
   (C6_unresolvable_peers_skipped npW
      { Ports := [], From := [{ PodSelector := true }] }
      { Ports := [], To := [{ PodSelector := true }] } 100
      (by decide) (by decide) (by decide) (by decide)).1,
   (C6_unresolvable_peers_skipped npW
      { Ports := [], From := [{ PodSelector := true }] }
      { Ports := [], To := [{ PodSelector := true }] } 100
      (by decide) (by decide) (by decide) (by decide)).2⟩

/-- C7: protocol resolution TCP→"6", UDP→"17", SCTP→"132", with both an
absent and an unrecognized protocol defaulting to TCP; port resolution
turns an integral port into its decimal string and a named or absent port
into "" (all ports). -/
theorem C7_protocol_port_resolution (s : String) (n : Int) (t : String)
    (hs1 : s ≠ "TCP") (hs2 : s ≠ "UDP") (hs3 : s ≠ "SCTP") :
    protocolToNumber none = "6" ∧
    protocolToNumber (some "TCP") = "6" ∧
    protocolToNumber (some "UDP") = "17" ∧
    protocolToNumber (some "SCTP") = "132" ∧
    protocolToNumber (some s) = "6" ∧
    portToString none = "" ∧
    portToString (some (.intVal n)) = toString n ∧
    portToString (some (.strVal t)) = "" := by
  refine ⟨rfl, rfl, rfl, rfl, ?_, rfl, rfl, rfl⟩
  simp [protocolToNumber, hs1, hs2, hs3]

/-- C7 witness: the unrecognized protocol "ICMP" maps to "6" and port 80 to
"80". -/
theorem C7_protocol_port_resolution_witness :
    ("ICMP" ≠ "TCP" ∧ "ICMP" ≠ "UDP" ∧ "ICMP" ≠ "SCTP") ∧
    protocolToNumber (some "ICMP") = "6" ∧
    portToString (some (.intVal 80)) = "80" :=
  ⟨⟨by decide, by decide, by decide⟩,
   (C7_protocol_port_resolution "ICMP" 80 "http"
      (by decide) (by decide) (by decide)).2.2.2.2.1,
   by decide⟩

/-- C10 counterexample: the claim asserts that a policy expanding to more
than 65436 rules produces *repeated* priorities, but at 65437 rules the
counter has wrapped only once and all 65437 priorities (100…65535, 0) are
pairwise distinct. -/
theorem C10_counterexample :
    65436 < (NetworkPolicyToACLRules bigPolicy).length ∧
    ((NetworkPolicyToACLRules bigPolicy).map ACLRule.Priority).Nodup := by
  constructor
  · rw [length_networkPolicyToACLRules, bigPolicy_total]
    norm_num
  · rw [priorities_map, bigPolicy_total]
    exact prio_nodup_of_le 65437 (by norm_num)

/-- C10 (amended): the k-th emitted rule carries priority
`(100 + k) mod 2^16`; priorities are strictly increasing (no wrap) for
policies expanding to at most 65436 rules and non-monotonic beyond that;
they repeat exactly when the policy expands to more than 2^16 rules. -/
theorem C10_priority_wraparound (np : NetworkPolicy) :
    (∀ k, k < (NetworkPolicyToACLRules np).length →
      ((NetworkPolicyToACLRules np).getD k default).Priority = (100 + k) % 65536) ∧
    (totalExpansionCount np ≤ 65436 →
      List.Chain' (· < ·) ((NetworkPolicyToACLRules np).map ACLRule.Priority)) ∧
    (65436 < totalExpansionCount np →
      ¬ List.Chain' (· < ·) ((NetworkPolicyToACLRules np).map ACLRule.Priority)) ∧
    (totalExpansionCount np ≤ 65536 →
      ((NetworkPolicyToACLRules np).map ACLRule.Priority).Nodup) ∧
    (65536 < totalExpansionCount np →
      ¬ ((NetworkPolicyToACLRules np).map ACLRule.Priority).Nodup) := by
  refine ⟨?_, ?_, ?_, ?_, ?_⟩
  · intro k hk
    rw [List.getD_eq_getElem _ _ hk]
    have hk' : k < ((NetworkPolicyToACLRules np).map ACLRule.Priority).length := by
      simpa using hk
    have h1 := List.getElem_of_eq (priorities_map np) hk'
    rw [List.getElem_map] at h1
    rw [h1, List.getElem_map, List.getElem_range]
  · intro h
    rw [priorities_map]
    exact prio_chain_of_le _ h
  · intro h
    rw [priorities_map]
    exact prio_not_chain_of_gt _ h
  · intro h
    rw [priorities_map]
    exact prio_nodup_of_le _ h
  · intro h
    rw [priorities_map]
    exact prio_not_nodup_of_gt _ h

/-- C10 witness: on the 4-rule example the first rule has priority 100 and
the 4 priorities are pairwise distinct. -/
theorem C10_priority_wraparound_witness :
    0 < (NetworkPolicyToACLRules smallPolicy).length ∧
    ((NetworkPolicyToACLRules smallPolicy).getD 0 default).Priority = (100 + 0) % 65536 ∧
    totalExpansionCount smallPolicy ≤ 65536 ∧
    ((NetworkPolicyToACLRules smallPolicy).map ACLRule.Priority).Nodup :=
  ⟨by decide, (C10_priority_wraparound smallPolicy).1 0 (by decide), by decide,
   (C10_priority_wraparound smallPolicy).2.2.2.1 (by decide)⟩

/-- C2: an apply over `N ≥ 1` endpoints attempts every endpoint in order
(no early abort), returns an error — and that error is the aggregate one —
iff at least one endpoint failed, and replaces the tracking entry for the
key with exactly the `N − M` rule sets of the successful endpoints,
independently of any prior entry (the initial index `st` is arbitrary, so
this is an overwrite, never a merge; failed endpoints are not recorded). -/
theorem C2_apply_partial_failure (host : Host) (st : TrackingIndex) (key : String)
    (rules : List ACLRule) (endpoints : List HostComputeEndpoint)
    (policies : List EndpointPolicy)
    (h1 : host.listEndpoints = .ok endpoints) (h2 : endpoints ≠ [])
    (h3 : buildPolicies host.marshal rules = .ok policies) :
    ((ApplyACLRules host st key rules).2.2 =
      .listEndpoints :: endpoints.map (fun ep => HostCall.applyPolicy ep.Id)) ∧
    ((ApplyACLRules host st key rules).2.1.isSome = true ↔
      1 ≤ applyFailCount host policies endpoints) ∧
    ((ApplyACLRules host st key rules).2.1 = none ∨
      (ApplyACLRules host st key rules).2.1 =
        some (.applyAggregate (applyFailCount host policies endpoints)
          endpoints.length (applyToEndpoints host policies endpoints).2.1)) ∧
    (lookupPolicy (ApplyACLRules host st key rules).1 key =
      some (successfulRuleSets host policies endpoints)) ∧
    ((successfulRuleSets host policies endpoints).length =
      endpoints.length - applyFailCount host policies endpoints) := by
  rw [ApplyACLRules_ok host st key rules endpoints policies h1 h2 h3]
  refine ⟨rfl, ?_, ?_, ?_, length_successfulRuleSets host policies endpoints⟩
  · by_cases hM : applyFailCount host policies endpoints = 0
    · simp [hM]
    · simp only [hM, if_false]
      simp
      omega
  · by_cases hM : applyFailCount host policies endpoints = 0
    · left
      simp [hM]
    · right
      simp [hM]
  · exact lookupPolicy_setPolicy st key _

/-- C2 witness: two endpoints, the second fails; the entry for the key is
overwritten (the pre-existing entry is discarded) with the single success. -/
theorem C2_apply_partial_failure_witness :
    wHostApply.listEndpoints = .ok [⟨"e1", "ep-1"⟩, ⟨"e2", "ep-2"⟩] ∧
    ([⟨"e1", "ep-1"⟩, ⟨"e2", "ep-2"⟩] : List HostComputeEndpoint) ≠ [] ∧
    buildPolicies wHostApply.marshal [sampleRule] =
      .ok [{ Type' := .ACL, Settings := "acl-json" }] ∧
    lookupPolicy (ApplyACLRules wHostApply preSt "default/web" [sampleRule]).1
        "default/web" =
      some (successfulRuleSets wHostApply [{ Type' := .ACL, Settings := "acl-json" }]
        [⟨"e1", "ep-1"⟩, ⟨"e2", "ep-2"⟩]) :=
  ⟨rfl, by decide, rfl,
   (C2_apply_partial_failure wHostApply preSt "default/web" [sampleRule]
      [⟨"e1", "ep-1"⟩, ⟨"e2", "ep-2"⟩] [{ Type' := .ACL, Settings := "acl-json" }]
      rfl (by decide) rfl).2.2.2.1⟩

/-- C3: apply followed by remove always leaves the key untracked —
`getTrackedRuleSets` reports not-found — no matter how the hosts behave
during either call (removal deletes the entry eagerly and never restores
it, as the second conjunct states for an arbitrary starting index). -/
theorem C3_apply_remove_roundtrip (hostA hostR : Host) (st : TrackingIndex)
    (key : String) (rules : List ACLRule) :
    GetAppliedPolicies
        (RemoveACLRules hostR (ApplyACLRules hostA st key rules).1 key).1 key =
      ([], false) ∧
    lookupPolicy (RemoveACLRules hostR st key).1 key = none := by
  constructor
  · have h := lookup_remove_self hostR (ApplyACLRules hostA st key rules).1 key
    simp [GetAppliedPolicies, h]
  · exact lookup_remove_self hostR st key

/-- A tracked entry fixture for remove-side witnesses. -/
def preStDb : TrackingIndex :=
  [("default/db", [{ EndpointID := "e1", Policies := [] }])]

/-- C4 counterexample: the claim allows an AggregateError only when *not
all* per-endpoint operations failed, but with a single endpoint whose
install fails (all 1 of 1 operations failed) the code still returns the
aggregate error. -/
theorem C4_counterexample :
    applyFailCount wHostAllFail [{ Type' := .ACL, Settings := "acl-json" }]
        [⟨"e1", "ep-1"⟩] = 1 ∧
    (ApplyACLRules wHostAllFail [] "default/db" [sampleRule]).2.1 =
      some (.applyAggregate 1 1 ["endpoint e1: hns unreachable"]) := by
  constructor
  · decide
  · decide

/-- C4 (amended): apply and remove return an aggregate error exactly when
at least one per-endpoint operation failed (including when all failed);
both calls still complete their best-effort pass over every endpoint, and
tracking state is updated as specified (apply overwrites the entry with the
successes, remove deletes it) even when the error is returned. -/
theorem C4_aggregate_error (host : Host) (st : TrackingIndex) (key : String)
    (rules : List ACLRule) (endpoints : List HostComputeEndpoint)
    (policies : List EndpointPolicy) (ruleSets : List RuleSet)
    (h1 : host.listEndpoints = .ok endpoints) (h2 : endpoints ≠ [])
    (h3 : buildPolicies host.marshal rules = .ok policies)
    (h4 : lookupPolicy st key = some ruleSets) :
    ((ApplyACLRules host st key rules).2.1.isSome = true ↔
      1 ≤ applyFailCount host policies endpoints) ∧
    ((ApplyACLRules host st key rules).2.1 = none ∨
      (ApplyACLRules host st key rules).2.1 =
        some (.applyAggregate (applyFailCount host policies endpoints)
          endpoints.length (applyToEndpoints host policies endpoints).2.1)) ∧
    ((ApplyACLRules host st key rules).2.2 =
      .listEndpoints :: endpoints.map (fun ep => HostCall.applyPolicy ep.Id)) ∧
    (lookupPolicy (ApplyACLRules host st key rules).1 key =
      some (successfulRuleSets host policies endpoints)) ∧
    ((RemoveACLRules host st key).2.1.isSome = true ↔
      1 ≤ ruleSets.countP (removeFails host)) ∧
    ((RemoveACLRules host st key).2.1 = none ∨
      (RemoveACLRules host st key).2.1 =
        some (.removeAggregate (ruleSets.countP (removeFails host)) ruleSets.length
          (removeFromRuleSets host ruleSets).1)) ∧
    ((RemoveACLRules host st key).2.2 = ruleSets.flatMap (removeTraceOf host)) ∧
    (lookupPolicy (RemoveACLRules host st key).1 key = none) := by
  rw [ApplyACLRules_ok host st key rules endpoints policies h1 h2 h3,
    RemoveACLRules_tracked host st key ruleSets h4]
  refine ⟨?_, ?_, rfl, lookupPolicy_setPolicy st key _, ?_, ?_, rfl,
    lookupPolicy_deletePolicy st key⟩
  · by_cases hM : applyFailCount host policies endpoints = 0
    · simp [hM]
    · simp only [hM, if_false]
      simp
      omega
  · by_cases hM : applyFailCount host policies endpoints = 0
    · left
      simp [hM]
    · right
      simp [hM]
  · by_cases hM : ruleSets.countP (removeFails host) = 0
    · simp [hM]
    · rw [if_neg hM]
      simp only [Option.isSome_some, true_iff]
      omega
  · by_cases hM : ruleSets.countP (removeFails host) = 0
    · left
      simp [hM]
    · right
      simp [hM]

/-- C4 witness: one endpoint, everything fails; apply returns the aggregate
error and remove still deletes the tracking entry. -/
theorem C4_aggregate_error_witness :
    wHostAllFail.listEndpoints = .ok [⟨"e1", "ep-1"⟩] ∧
    ([⟨"e1", "ep-1"⟩] : List HostComputeEndpoint) ≠ [] ∧
    buildPolicies wHostAllFail.marshal [sampleRule] =
      .ok [{ Type' := .ACL, Settings := "acl-json" }] ∧
    lookupPolicy preStDb "default/db" =
      some [{ EndpointID := "e1", Policies := [] }] ∧
    ((ApplyACLRules wHostAllFail preStDb "default/db" [sampleRule]).2.1.isSome = true ↔
      1 ≤ applyFailCount wHostAllFail [{ Type' := .ACL, Settings := "acl-json" }]
        [⟨"e1", "ep-1"⟩]) ∧
    lookupPolicy (RemoveACLRules wHostAllFail preStDb "default/db").1 "default/db" =
      none :=
  ⟨rfl, by decide, rfl, rfl,
   (C4_aggregate_error wHostAllFail preStDb "default/db" [sampleRule]
      [⟨"e1", "ep-1"⟩] [{ Type' := .ACL, Settings := "acl-json" }]
      [{ EndpointID := "e1", Policies := [] }] rfl (by decide) rfl rfl).1,
   (C4_aggregate_error wHostAllFail preStDb "default/db" [sampleRule]
      [⟨"e1", "ep-1"⟩] [{ Type' := .ACL, Settings := "acl-json" }]
      [{ EndpointID := "e1", Policies := [] }] rfl (by decide) rfl rfl).2.2.2.2.2.2.2⟩

/-- C5: an apply whose endpoint enumeration fails returns that error with
the tracking state untouched and no endpoint contacted; an apply whose
rule encoding fails (with at least one endpoint present, so the build is
reached) aborts with the encode error before any host mutation, tracking
state untouched. -/
theorem C5_fatal_errors_abort (host : Host) (st : TrackingIndex) (key : String)
    (rules : List ACLRule) :
    (∀ e, host.listEndpoints = .error e →
      ApplyACLRules host st key rules =
        (st, some (.listEndpointsFailed e), [.listEndpoints])) ∧
    (∀ endpoints e, host.listEndpoints = .ok endpoints → endpoints ≠ [] →
      buildPolicies host.marshal rules = .error e →
      ApplyACLRules host st key rules =
        (st, some (.buildPoliciesFailed e), [.listEndpoints])) :=
  ⟨fun e he => ApplyACLRules_enumFail host st key rules e he,
   fun endpoints e he hne hb =>
     ApplyACLRules_buildFail host st key rules endpoints e he hne hb⟩

/-- C5 witness: a failing enumeration and a failing encoder each abort with
the corresponding error, leaving the (empty) index empty. -/
theorem C5_fatal_errors_abort_witness :
    wHostEnumFail.listEndpoints = .error "hns unavailable" ∧
    ApplyACLRules wHostEnumFail [] "default/web" [sampleRule] =
      ([], some (.listEndpointsFailed "hns unavailable"), [.listEndpoints]) ∧
    wHostEncodeFail.listEndpoints = .ok [⟨"e1", "ep-1"⟩] ∧
    buildPolicies wHostEncodeFail.marshal [sampleRule] =
      .error "failed to marshal ACL setting for rule 0: unsupported value" ∧
    ApplyACLRules wHostEncodeFail [] "default/web" [sampleRule] =
      ([], some (.buildPoliciesFailed
        "failed to marshal ACL setting for rule 0: unsupported value"),
       [.listEndpoints]) :=
  ⟨rfl,
   (C5_fatal_errors_abort wHostEnumFail [] "default/web" [sampleRule]).1
     "hns unavailable" rfl,
   rfl, rfl,
   (C5_fatal_errors_abort wHostEncodeFail [] "default/web" [sampleRule]).2
     [⟨"e1", "ep-1"⟩] "failed to marshal ACL setting for rule 0: unsupported value"
     rfl (by decide) rfl⟩

/-- C8 counterexample: with zero endpoints the call does return success and
leave the state unchanged, but if an entry for the key already exists it is
not cleared, so `getTrackedRuleSets` afterwards reports *found*, refuting
the claim's unconditional "afterwards reports not-found". -/
theorem C8_counterexample :
    wHostZero.listEndpoints = .ok [] ∧
    (ApplyACLRules wHostZero preSt "default/web" [sampleRule]).2.1 = none ∧
    GetAppliedPolicies (ApplyACLRules wHostZero preSt "default/web" [sampleRule]).1
        "default/web" =
      ([{ EndpointID := "stale", Policies := [] }], true) := by
  refine ⟨rfl, ?_, ?_⟩
  · decide
  · decide

/-- C8 (amended): an apply that enumerates zero endpoints returns success,
makes no host call beyond the enumeration itself, and neither creates nor
clears a tracking entry (the index is returned unchanged); consequently
`getTrackedRuleSets(policyKey)` reports not-found provided no entry for the
key existed before the call. -/
theorem C8_zero_endpoints_noop (host : Host) (st : TrackingIndex) (key : String)
    (rules : List ACLRule) (h : host.listEndpoints = .ok []) :
    ApplyACLRules host st key rules = (st, none, [.listEndpoints]) ∧
    (lookupPolicy st key = none →
      GetAppliedPolicies (ApplyACLRules host st key rules).1 key = ([], false)) := by
  have heq := ApplyACLRules_zeroEndpoints host st key rules h
  refine ⟨heq, fun hl => ?_⟩
  rw [heq]
  simp [GetAppliedPolicies, hl]

/-- C8 witness: zero endpoints against an empty index — success, state
unchanged, key not found afterwards. -/
theorem C8_zero_endpoints_noop_witness :
    wHostZero.listEndpoints = .ok [] ∧
    lookupPolicy ([] : TrackingIndex) "default/web" = none ∧
    ApplyACLRules wHostZero [] "default/web" [sampleRule] =
      ([], none, [.listEndpoints]) ∧
    GetAppliedPolicies (ApplyACLRules wHostZero [] "default/web" [sampleRule]).1
        "default/web" =
      ([], false) :=
  ⟨rfl, rfl,
   (C8_zero_endpoints_noop wHostZero [] "default/web" [sampleRule] rfl).1,
   (C8_zero_endpoints_noop wHostZero [] "default/web" [sampleRule] rfl).2 rfl⟩

/-- C9: when at least one endpoint is enumerated and installation fails on
every one, the tracking entry is still overwritten — with the empty list —
so the key reports found with zero rule sets, any prior contents are
discarded (the initial index is arbitrary), and the key appears in the
tracked-key listing although nothing is enforced. -/
theorem C9_all_fail_overwrites_empty (host : Host) (st : TrackingIndex) (key : String)
    (rules : List ACLRule) (endpoints : List HostComputeEndpoint)
    (policies : List EndpointPolicy)
    (h1 : host.listEndpoints = .ok endpoints) (h2 : endpoints ≠ [])
    (h3 : buildPolicies host.marshal rules = .ok policies)
    (h4 : ∀ ep ∈ endpoints, (host.applyEndpointPolicy ep .Add ⟨policies⟩).isSome = true) :
    lookupPolicy (ApplyACLRules host st key rules).1 key = some [] ∧
    GetAppliedPolicies (ApplyACLRules host st key rules).1 key = ([], true) ∧
    key ∈ ListTrackedPolicies (ApplyACLRules host st key rules).1 := by
  have hfilter : endpoints.filter (applySucceeds host policies) = [] := by
    rw [List.filter_eq_nil_iff]
    intro ep hep
    have h := h4 ep hep
    simp only [applySucceeds]
    cases hc : host.applyEndpointPolicy ep .Add ⟨policies⟩ with
    | none =>
      rw [hc] at h
      simp at h
    | some e => simp
  have hsucc : successfulRuleSets host policies endpoints = [] := by
    simp [successfulRuleSets, hfilter]
  rw [ApplyACLRules_ok host st key rules endpoints policies h1 h2 h3, hsucc]
  refine ⟨lookupPolicy_setPolicy st key [], ?_, ?_⟩
  · have h := lookupPolicy_setPolicy st key ([] : List RuleSet)
    simp [GetAppliedPolicies, h]
  · exact mem_listTrackedPolicies_setPolicy st key []

/-- C9 witness: one endpoint, every install fails; the pre-existing entry
is replaced by the empty one, reported found with zero rule sets, and the
key stays listed. -/
theorem C9_all_fail_overwrites_empty_witness :
    wHostAllFail.listEndpoints = .ok [⟨"e1", "ep-1"⟩] ∧
    (∀ ep ∈ ([⟨"e1", "ep-1"⟩] : List HostComputeEndpoint),
      (wHostAllFail.applyEndpointPolicy ep .Add
        ⟨[{ Type' := .ACL, Settings := "acl-json" }]⟩).isSome = true) ∧
    GetAppliedPolicies (ApplyACLRules wHostAllFail preStDb "default/db" [sampleRule]).1
        "default/db" =
      ([], true) ∧
    "default/db" ∈
      ListTrackedPolicies (ApplyACLRules wHostAllFail preStDb "default/db" [sampleRule]).1 :=
  ⟨rfl, by decide,
   (C9_all_fail_overwrites_empty wHostAllFail preStDb "default/db" [sampleRule]
      [⟨"e1", "ep-1"⟩] [{ Type' := .ACL, Settings := "acl-json" }]
      rfl (by decide) rfl (by decide)).2.1,
   (C9_all_fail_overwrites_empty wHostAllFail preStDb "default/db" [sampleRule]
      [⟨"e1", "ep-1"⟩] [{ Type' := .ACL, Settings := "acl-json" }]
      rfl (by decide) rfl (by decide)).2.2⟩

/-! Sanity checks against the unit tests in `policy_test.go`. -/

example :
    NetworkPolicyToACLRules
      { Namespace := "default", Name := "allow-web",
        Ingress := [{ Ports := [{ Protocol := some "TCP", Port := some (.intVal 80) }],
                      From := [{ IPBlock := some ⟨"0.0.0.0/0"⟩ }] }] } =
      [{ Name := "default/allow-web-ingress", Action := .ActionTypeAllow,
         Direction := .DirectionTypeIn, Protocol := "6", LocalPorts := "80",
         RemoteAddresses := "0.0.0.0/0", Priority := 100 }] := by decide

example :
    (NetworkPolicyToACLRules
      { Namespace := "default", Name := "multi",
        Ingress := [{ Ports := [{ Protocol := some "TCP", Port := some (.intVal 80) },
                                { Protocol := some "TCP", Port := some (.intVal 443) }],
                      From := [{ IPBlock := some ⟨"10.0.0.0/8"⟩ },
                               { IPBlock := some ⟨"192.168.0.0/16"⟩ }] }] }).map
        ACLRule.Priority = [100, 101, 102, 103] := by decide

example :
    NetworkPolicyToACLRules
      { Namespace := "default", Name := "selector-only",
        Ingress := [{ Ports := [], From := [{ PodSelector := true }] }] } = [] := by decide

end FirewallController
